import Mathlib

/-!
Verification of the asynchronous email dispatch pipeline of the budget-planner
repository, shallowly embedded in Lean 4.

The embedding covers:
 - `Email`, `Attachment`, `EmailResponse` and `Email.Validate`
   (pkg/email/emailtypes/email.go);
 - `EmailTask` and its mutations `PrepareTask`, `IncrementRetry`,
   `MarkAsFailed`, `MarkAsSent`, `ShouldRetry`, `IsCompleted`
   (pkg/email/emailtypes, the task file);
 - `RetryPolicy`, `NewRetryPolicy`, `GetRetryInterval`
   (pkg/email/queue/retry_policy.go);
 - `DefaultEmailQueue.Enqueue` / `ProcessQueue` / `processTask` and the
   `TaskPriorityQueue` min-heap together with Go's `container/heap`
   push/pop algorithms (pkg/email/queue);
 - `EmailManager.QueueEmail` / `Send` (internal/domain/integration/email_provider.go);
 - `SMTPProvider.Send` / `tryAllConnectionMethods` / `BatchSend`
   (pkg/email/emailtypes, the SMTP file);
 - `EmailWorker.processEmailTask` / `retryFailedTask` / `notifyAdminOnFailure`
   (internal/worker/email/email_worker.go).

Modelling conventions: Go `int` is `Int` (no arithmetic in the verified code
comes near the 64-bit boundary, so overflow is not modelled);
`time.Duration` is `Int` (nanoseconds); `time.Time` is `Nat`; Go slices are
`List`s; a Go `error` result is `Except String`; an operation that can panic
returns `Option`.  Nondeterministic inputs (fresh UUIDs, the current time,
the outcome of a network send) are passed as explicit parameters.
Logging calls are pure observations and are omitted.
-/

/-! ## Email data model (pkg/email/emailtypes/email.go) -/

/-- Attachment: filename, declared MIME type, binary content (bytes as `Nat`s;
only emptiness of the content is ever inspected). -/
structure Attachment where
  filename : String
  contentType : String
  content : List Nat

deriving Repr, DecidableEq

/-- Email: the message payload.  The Go field `From` is `fromAddr` here
(`from` is a Lean keyword); `SentAt` is a `Nat` timestamp with `0` as Go's
zero time. -/
structure Email where
  id : String
  «to» : List String
  cc : List String
  bcc : List String
  fromAddr : String
  subject : String
  body : String
  attachments : List Attachment
  metadata : List (String × String)
  sentAt : Nat

deriving Repr, DecidableEq

/-- EmailResponse: result of a send operation. -/
structure EmailResponse where
  messageID : String
  status : String
  sentAt : Nat

deriving Repr, DecidableEq

/-- Character class `[a-zA-Z0-9._%+-]` of the local part of the validation
regex in `isValidEmail`. -/
def localChar (c : Char) : Bool :=
  c.isAlpha || c.isDigit || c == '.' || c == '_' || c == '%' || c == '+' || c == '-'

/-- Character class `[a-zA-Z0-9.-]` of the domain part of the validation
regex in `isValidEmail`. -/
def domainChar (c : Char) : Bool :=
  c.isAlpha || c.isDigit || c == '.' || c == '-'

/-- Matcher for the sub-pattern `[a-zA-Z0-9.-]+\.[a-zA-Z]` followed by at
least one more letter and the end of input: some position `j` holds a dot,
what precedes it is a non-empty run of `domainChar`s and what follows it is
at least two letters. -/
def domainMatch (d : List Char) : Bool :=
  (List.range d.length).any fun j =>
    d.get? j == some '.' && decide (0 < j) && (d.take j).all domainChar &&
      decide (2 ≤ d.length - (j + 1)) && (d.drop (j + 1)).all Char.isAlpha

/-- isValidEmail: full match of the anchored regex
`[a-zA-Z0-9._%+-]+@[a-zA-Z0-9.-]+\.[a-zA-Z]` with two or more final letters.
Since `@` belongs to neither character class, a full match exists exactly
when some position `i` holds `@`, the characters before it form a non-empty
run of `localChar`s and the rest matches `domainMatch`. -/
def isValidEmail (s : String) : Bool :=
  let cs := s.data
  (List.range cs.length).any fun i =>
    cs.get? i == some '@' && decide (0 < i) && (cs.take i).all localChar &&
      domainMatch (cs.drop (i + 1))

/-- Go `unicode.IsSpace` on the Latin-1 range (the only characters the
verified inputs contain): space, tab, newline, vertical tab, form feed,
carriage return, NEL, NBSP. -/
def goIsSpace (c : Char) : Bool :=
  c == ' ' || c == '\t' || c == '\n' || c == '\x0b' || c == '\x0c' ||
    c == '\r' || c.toNat == 0x85 || c.toNat == 0xA0

/-- Test `strings.TrimSpace s == ""`: every character is white space. -/
def trimSpaceIsEmpty (s : String) : Bool :=
  s.data.all goIsSpace

/-- The attachment content-type allow-list `allowedContentTypes`. -/
def validateAttachmentType (contentType : String) : Bool :=
  contentType == "application/pdf" || contentType == "image/png" ||
    contentType == "image/jpeg" || contentType == "text/plain"

/-- One iteration of the attachment loop in `Email.Validate`: the checks on
a single attachment, in source order. -/
def validateAttachment (a : Attachment) : Except String Unit :=
  if a.filename == "" then .error "attachment filename is missing"
  else if a.contentType == "" then .error "attachment content type is missing"
  else if a.content.isEmpty then .error ("attachment content is empty: " ++ a.filename)
  else if !validateAttachmentType a.contentType then
    .error ("attachment " ++ a.filename ++ " has an unsupported content type: " ++ a.contentType)
  else .ok ()

/-- The attachment loop of `Email.Validate`: first failing attachment wins. -/
def validateAttachments : List Attachment → Except String Unit
  | [] => .ok ()
  | a :: rest =>
    match validateAttachment a with
    | .error e => .error e
    | .ok _ => validateAttachments rest

/-- Email.Validate, in source order: recipients present, every recipient
address well formed (the sender check only logs a warning and never fails),
subject and body non-blank, attachments valid. -/
def validateEmail (e : Email) : Except String Unit :=
  if e.«to».isEmpty && e.cc.isEmpty && e.bcc.isEmpty then
    .error "no recipients specified in To, Cc, or Bcc"
  else
    match (e.«to» ++ e.cc ++ e.bcc).find? (fun r => !isValidEmail r) with
    | some r => .error ("invalid recipient email: " ++ r)
    | none =>
      if trimSpaceIsEmpty e.subject then .error "email subject is required"
      else if trimSpaceIsEmpty e.body then .error "email body is empty"
      else validateAttachments e.attachments

/-- Email.PrepareForSend: stamp `SentAt` when it is still the zero time. -/
def prepareForSend (now : Nat) (e : Email) : Email :=
  if e.sentAt = 0 then { e with sentAt := now } else e

/-! ## EmailTask and its mutations (pkg/email/emailtypes) -/

/-- EmailTask: one scheduled email delivery attempt sequence. -/
structure EmailTask where
  taskID : String
  email : Option Email
  providerName : String
  retryCount : Int
  maxRetries : Int
  requestedAt : Nat
  createdAt : Nat
  status : String
  priority : Int

deriving Repr, DecidableEq

/-- EmailTask.MarkAsFailed: status `failed`, retry count forced to the max. -/
def EmailTask.markAsFailed (t : EmailTask) : EmailTask :=
  { t with status := "failed", retryCount := t.maxRetries }

/-- EmailTask.MarkAsSent: status `sent`. -/
def EmailTask.markAsSent (t : EmailTask) : EmailTask :=
  { t with status := "sent" }

/-- EmailTask.IncrementRetry: increment the retry count, then mark failed
when it has reached the max. -/
def EmailTask.incrementRetry (t : EmailTask) : EmailTask :=
  let t' : EmailTask := { t with retryCount := t.retryCount + 1 }
  if t'.maxRetries ≤ t'.retryCount then t'.markAsFailed else t'

/-- EmailTask.ShouldRetry: eligibility answer (the backoff sleep inside the
source function is a timing effect with no influence on any state). -/
def EmailTask.shouldRetry (t : EmailTask) : Bool :=
  decide (t.retryCount < t.maxRetries)

/-- EmailTask.IsCompleted: terminal states. -/
def EmailTask.isCompleted (t : EmailTask) : Bool :=
  t.status == "sent" || t.status == "failed"

/-- EmailTask.PrepareTask: assign an ID when absent, stamp the email,
set creation time and the `queued` status.  `freshID` stands for the
source's `generateUniqueID()`. -/
def EmailTask.prepareTask (freshID : String) (now : Nat) (t : EmailTask) : EmailTask :=
  { t with
    taskID := if t.taskID = "" then freshID else t.taskID,
    email := t.email.map (prepareForSend now),
    createdAt := now,
    status := "queued" }

/-! ## Retry policy (pkg/email/queue/retry_policy.go) -/

/-- DefaultRetryIntervals: 1, 5 and 10 minutes, in nanoseconds. -/
def defaultRetryIntervals : List Int :=
  [60 * 1000000000, 5 * 60 * 1000000000, 10 * 60 * 1000000000]

/-- RetryPolicy (the failed-task side store is not needed by any claim and
is carried by the queue model instead). -/
structure RetryPolicy where
  maxRetries : Int
  retryIntervals : List Int

deriving Repr, DecidableEq

/-- NewRetryPolicy: substitute the default intervals when none are given. -/
def newRetryPolicy (maxRetries : Int) (retryIntervals : List Int) : RetryPolicy :=
  { maxRetries := maxRetries,
    retryIntervals := if retryIntervals.isEmpty then defaultRetryIntervals else retryIntervals }

/-- RetryPolicy.GetRetryInterval.  `none` models a Go index panic: the
source indexes `RetryIntervals[len-1]` when the count is out of range
(panicking on an empty list) and `RetryIntervals[retryCount]` otherwise
(panicking on a negative count). -/
def getRetryInterval (r : RetryPolicy) (retryCount : Int) : Option Int :=
  if (r.retryIntervals.length : Int) ≤ retryCount then
    r.retryIntervals.getLast?
  else if retryCount < 0 then none
  else r.retryIntervals.get? retryCount.toNat

/-! ## The task priority queue: `TaskPriorityQueue` with Go's `container/heap`
algorithms (heap.Push appends then sifts up; heap.Pop swaps the root to the
end, sifts down, and removes the last element). -/

/-- Priority stored at index `i` of the heap slice (every verified access is
in range; the default is never reached there). -/
def priAt (a : List EmailTask) (i : Nat) : Int :=
  ((a[i]?).map EmailTask.priority).getD 0

/-- TaskPriorityQueue.Less i j: the task at `i` has the strictly smaller
priority number. -/
def heapLess (a : List EmailTask) (i j : Nat) : Bool :=
  match a[i]?, a[j]? with
  | some x, some y => decide (x.priority < y.priority)
  | _, _ => false

/-- TaskPriorityQueue.Swap i j. -/
def heapSwap (a : List EmailTask) (i j : Nat) : List EmailTask :=
  match a[i]?, a[j]? with
  | some x, some y => (a.set i y).set j x
  | _, _ => a

/-- container/heap `up`: sift the element at `j` towards the root while it is
smaller than its parent. -/
def heapUp (a : List EmailTask) (j : Nat) : List EmailTask :=
  if h : (j - 1) / 2 = j ∨ heapLess a j ((j - 1) / 2) = false then a
  else heapUp (heapSwap a ((j - 1) / 2) j) ((j - 1) / 2)
termination_by j
decreasing_by
  simp only [not_or] at h
  omega

/-- The loop-local index `j` of container/heap `down`: the left child, or
the right child when it exists within `n` and is smaller. -/
def minChild (a : List EmailTask) (i n : Nat) : Nat :=
  if 2 * i + 2 < n ∧ heapLess a (2 * i + 2) (2 * i + 1) = true
    then 2 * i + 2 else 2 * i + 1

/-- container/heap `down`: sift the element at `i` down within the first `n`
entries, swapping with the smaller child while that child is smaller. -/
def heapDown (a : List EmailTask) (i n : Nat) : List EmailTask :=
  if hstop : n ≤ 2 * i + 1 then a
  else if hle : heapLess a (minChild a i n) i = false then a
  else heapDown (heapSwap a i (minChild a i n)) (minChild a i n) n
termination_by n - i
decreasing_by
  simp only [not_le] at hstop
  unfold minChild
  split <;> omega

/-- heap.Push on the task queue: append, then sift up from the new index. -/
def heapPush (a : List EmailTask) (x : EmailTask) : List EmailTask :=
  heapUp (a ++ [x]) a.length

/-- heap.Pop on the task queue: swap the root with the last entry, sift the
new root down over the first `n` entries, then remove and return the last
entry.  `none` models the empty queue (ProcessQueue checks the length before
popping). -/
def heapPop (a : List EmailTask) : Option (EmailTask × List EmailTask) :=
  if a.isEmpty then none
  else
    match (heapDown (heapSwap a 0 (a.length - 1)) 0 (a.length - 1)).getLast? with
    | some t => some (t, (heapDown (heapSwap a 0 (a.length - 1)) 0 (a.length - 1)).dropLast)
    | none => none

/-- The binary min-heap ordering invariant of the slice: every non-root
entry is at least its parent. -/
def IsMinHeap (a : List EmailTask) : Prop :=
  ∀ j, j < a.length → 0 < j → priAt a ((j - 1) / 2) ≤ priAt a j

/-- Invariant of the sift-up loop: the heap ordering may be broken only at
the edge into `j`, and the parent of `j` already bounds the children of
`j`. -/
def UpOk (a : List EmailTask) (j : Nat) : Prop :=
  (∀ k, k < a.length → 0 < k → k ≠ j → priAt a ((k - 1) / 2) ≤ priAt a k) ∧
  (∀ c, c < a.length → 0 < c → (c - 1) / 2 = j → 0 < j →
    priAt a ((j - 1) / 2) ≤ priAt a c)

/-- Invariant of the sift-down loop over the first `n` entries: the heap
ordering may be broken only at the edges out of `i`, and the parent of `i`
already bounds the children of `i`. -/
def DownOk (a : List EmailTask) (i n : Nat) : Prop :=
  (∀ k, k < n → 0 < k → (k - 1) / 2 ≠ i → priAt a ((k - 1) / 2) ≤ priAt a k) ∧
  (∀ c, c < n → 0 < c → (c - 1) / 2 = i → 0 < i →
    priAt a ((i - 1) / 2) ≤ priAt a c)

/-- The heap ordering restricted to the first `n` entries. -/
def MinHeapUpTo (a : List EmailTask) (n : Nat) : Prop :=
  ∀ k, k < n → 0 < k → priAt a ((k - 1) / 2) ≤ priAt a k

/-! ## Queue operations (DefaultEmailQueue) and traces over them -/

/-- The field mutation performed by `DefaultEmailQueue.Enqueue` on the task
before pushing it: a fresh UUID and the current time overwrite `TaskID` and
`CreatedAt`; every other field is untouched. -/
def enqueueTaskFields (uuid : String) (now : Nat) (t : EmailTask) : EmailTask :=
  { t with taskID := uuid, createdAt := now }

/-- DefaultEmailQueue.Enqueue: mutate the task fields, push onto the heap. -/
def queueEnqueue (uuid : String) (now : Nat) (q : List EmailTask) (t : EmailTask) :
    List EmailTask × EmailTask :=
  let t' := enqueueTaskFields uuid now t
  (heapPush q t', t')

/-- One queue operation of the `ProcessQueue` / `Enqueue` interface. -/
inductive QOp where
  | push (t : EmailTask)
  | pop

deriving Repr, DecidableEq

/-- A trace of pushes and pops starting from a given heap: final heap plus
the popped tasks in pop order (an empty pop is ProcessQueue's wait-and-retry
branch and pops nothing). -/
def runOps : List QOp → List EmailTask → List EmailTask × List EmailTask
  | [], h => (h, [])
  | .push t :: ops, h => runOps ops (heapPush h t)
  | .pop :: ops, h =>
    match heapPop h with
    | none => runOps ops h
    | some (t, h') =>
      let r := runOps ops h'
      (r.1, t :: r.2)

/-- Pop repeatedly with explicit fuel, collecting the popped tasks.  Fuel
equal to the heap size drains the heap completely. -/
def drainHeapF : Nat → List EmailTask → List EmailTask
  | 0, _ => []
  | fuel + 1, a =>
    match heapPop a with
    | none => []
    | some (t, rest) => t :: drainHeapF fuel rest

/-- Drain the whole heap: pop as many times as there are tasks. -/
def drainHeap (a : List EmailTask) : List EmailTask :=
  drainHeapF a.length a

/-! ## Providers, the email manager and QueueEmail
(internal/domain/integration/email_provider.go) -/

/-- A registered provider: its `Name()` and the behaviour of its `Send`
(the network outcome is part of the model input). -/
structure Provider where
  name : String
  send : Email → Except String EmailResponse

/-- The EmailManager state visible to the verified operations: configured
max retries, the current default provider (`none` models a nil pointer) and
whether the email queue has been wired (`emailQueue != nil`). -/
structure ManagerState where
  maxRetries : Int
  defaultProvider : Option Provider
  queueWired : Bool

/-- EmailManager.Send: delegate to the current default provider, returning
its message ID.  The pair records which provider performed the send —
always the manager's current default, never one resolved from a task. -/
def managerSend (m : ManagerState) (email : Email) :
    Option (String × Email) × Except String String :=
  match m.defaultProvider with
  | none => (none, .error "email send failed: no default provider configured")
  | some p =>
    (some (p.name, email),
      match p.send email with
      | .error e => .error e
      | .ok r => .ok r.messageID)

/-- EmailManager.QueueEmail.  `prepID` stands for `generateUniqueID()` inside
`PrepareTask`, `enqID` for the UUID drawn by `Enqueue`; the returned task is
the one pushed onto the queue.  The outer `none` models the nil-pointer
panic when no default provider is set (ruled out by `NewEmailManager`). -/
def queueEmail (m : ManagerState) (prepID enqID : String) (now : Nat)
    (email : Email) (optionalParams : List Int) :
    Option (Except String EmailTask) :=
  if m.queueWired = false then some (.error "email queue not initialized")
  else
    match validateEmail email with
    | .error msg => some (.error ("email validation failed: " ++ msg))
    | .ok _ =>
      match m.defaultProvider with
      | none => none
      | some p =>
        let priority : Int :=
          match optionalParams with
          | p0 :: _ => if 0 < p0 then p0 else 2
          | [] => 2
        let maxRetries : Int :=
          match optionalParams with
          | _ :: r :: _ => if 0 < r ∧ r ≤ m.maxRetries then r else m.maxRetries
          | _ => m.maxRetries
        let task : EmailTask :=
          { taskID := "", email := some email, providerName := p.name,
            retryCount := 0, maxRetries := maxRetries, requestedAt := 0,
            createdAt := 0, status := "", priority := priority }
        some (.ok (enqueueTaskFields enqID now (task.prepareTask prepID now)))

/-! ## SMTPProvider: fallback chain, Send, BatchSend
(pkg/email/emailtypes, SMTP file) -/

/-- Outcome of one connection method: a message ID, or an error message. -/
abbrev MethodOutcome := Except String String

/-- The loop body of `tryAllConnectionMethods`: walk the method list in
order, return at the first success, remember the last error; after the loop
report a single wrapped error naming the last failure.  The first component
lists the methods actually attempted, in order. -/
def tryMethodsLoop : List (String × MethodOutcome) → Option String →
    List String × Except String String
  | [], lastErr =>
    ([], .error ("all SMTP connection methods failed, last error: " ++ lastErr.getD ""))
  | (name, o) :: rest, _ =>
    match o with
    | .ok msgID => ([name], .ok msgID)
    | .error e =>
      let r := tryMethodsLoop rest (some e)
      (name :: r.1, r.2)

/-- SMTPProvider.tryAllConnectionMethods: implicit TLS, then STARTTLS, then
plaintext, in this fixed order. -/
def tryAllConnectionMethods (oTLS oStart oPlain : MethodOutcome) :
    List String × Except String String :=
  tryMethodsLoop [("TLS", oTLS), ("STARTTLS", oStart), ("Plain", oPlain)] none

/-- SMTPProvider.Send: validate, build the MIME message (which never fails
in the source), then walk the fallback chain.  The first component records
the connection methods attempted. -/
def smtpSend (oTLS oStart oPlain : MethodOutcome) (now : Nat) (email : Email) :
    List String × Except String EmailResponse :=
  match validateEmail email with
  | .error msg => ([], .error ("email validation failed: " ++ msg))
  | .ok _ =>
    let r := tryAllConnectionMethods oTLS oStart oPlain
    match r.2 with
    | .error e => (r.1, .error ("failed to send email: " ++ e))
    | .ok msgID => (r.1, .ok { messageID := msgID, status := "sent", sentAt := now })

/-- SMTPProvider.BatchSend loop: one response appended per email, `sent` on
success, `failed` (with empty message ID) on error; a failing element never
stops the loop. -/
def batchSendResponses (send : Email → Except String EmailResponse) (now : Nat) :
    List Email → List EmailResponse
  | [] => []
  | e :: rest =>
    match send e with
    | .error _ =>
      { messageID := "", status := "failed", sentAt := now } ::
        batchSendResponses send now rest
    | .ok r =>
      { messageID := r.messageID, status := "sent", sentAt := now } ::
        batchSendResponses send now rest

/-- SMTPProvider.BatchSend: the per-email responses and the overall error,
which is always nil in the source. -/
def batchSend (send : Email → Except String EmailResponse) (now : Nat)
    (emails : List Email) : List EmailResponse × Option String :=
  (batchSendResponses send now emails, none)

/-! ## The worker (internal/worker/email/email_worker.go) and the queue
processing loop (DefaultEmailQueue.ProcessQueue / processTask) -/

/-- EmailWorker.retryFailedTask after the backoff timer fires: increment
`RetryCount` directly, then `Enqueue` (which overwrites `TaskID` and
`CreatedAt`). -/
def workerRetryReenqueue (uuid : String) (now : Nat) (t : EmailTask) : EmailTask :=
  enqueueTaskFields uuid now { t with retryCount := t.retryCount + 1 }

/-- formatRecipients. -/
def formatRecipients (recipients : List String) : String :=
  match recipients with
  | [] => "No Recipients"
  | r :: rest => rest.foldl (fun acc s => acc ++ ", " ++ s) r

/-- The admin alert message built by `EmailWorker.notifyAdminOnFailure`:
fixed admin recipient and sender, subject, interpolated HTML body (layout
whitespace of the Go raw literal abbreviated) and tracking metadata. -/
def adminAlertEmail (now : Nat) (task : EmailTask) : Email :=
  { id := "admin-alert-" ++ task.taskID,
    «to» := ["admin@tnprgpv.com"],
    cc := [], bcc := [],
    fromAddr := "no-reply@tnprgpv.com",
    subject := "🚨 Email Task Failure Alert",
    body :=
      "<h2 style=\"color: red;\">Email Task Failure Alert</h2>\n" ++
      "<p><strong>Task ID:</strong> " ++ task.taskID ++ "</p>\n" ++
      "<p><strong>Recipients:</strong> " ++
        formatRecipients ((task.email.map Email.to).getD []) ++ "</p>\n" ++
      "<p><strong>Subject:</strong> " ++
        ((task.email.map Email.subject).getD "") ++ "</p>\n" ++
      "<p><strong>Provider:</strong> " ++ task.providerName ++ "</p>\n" ++
      "<p><strong>Priority:</strong> " ++ toString task.priority ++ "</p>\n" ++
      "<p><strong>Error:</strong> Max retries exceeded</p>",
    attachments := [],
    metadata :=
      [("type", "admin_failure_alert"),
       ("task_id", task.taskID),
       ("provider", task.providerName),
       ("priority", toString task.priority),
       ("max_tries", toString task.maxRetries)],
    sentAt := now }

/-- Observable result of `EmailWorker.processEmailTask` on one task: the
sends performed through the manager (provider name and message, in order),
the admin alert messages constructed, the task's final state, and whether a
delayed re-enqueue was scheduled. -/
structure WorkerStep where
  sends : List (String × Email)
  adminAlerts : List Email
  task : EmailTask
  reEnqueued : Bool

deriving Repr

/-- EmailWorker.processEmailTask: send via the manager (which uses its
current default provider); on failure either schedule the guarded re-enqueue
(ShouldRetry true) or mark failed and notify the admin through the manager
again; on success mark sent.  `none` models the nil dereference on a task
without an email. -/
def workerProcessEmailTask (m : ManagerState) (uuid : String) (now : Nat)
    (task : EmailTask) : Option WorkerStep :=
  match task.email with
  | none => none
  | some email =>
    let r := managerSend m email
    match r.2 with
    | .error _ =>
      if task.shouldRetry then
        some { sends := r.1.toList, adminAlerts := [],
               task := workerRetryReenqueue uuid now task, reEnqueued := true }
      else
        let t1 := task.markAsFailed
        let alert := adminAlertEmail now t1
        let ra := managerSend m alert
        some { sends := r.1.toList ++ ra.1.toList, adminAlerts := [alert],
               task := t1, reEnqueued := false }
    | .ok _ =>
      some { sends := r.1.toList, adminAlerts := [], task := task.markAsSent,
             reEnqueued := false }

/-- DefaultEmailQueue.processTask: send through the queue's assigned email
service (`q.emailService`, set by `SetEmailService`); mark the task failed
on error — before ProcessQueue ever consults ShouldRetry — and sent on
success.  `none` models the nil dereferences (no email service assigned, or
a task without an email). -/
def queueProcessTask (svc : Option Provider) (task : EmailTask) :
    Option ((String × Email) × EmailTask × Bool) :=
  match svc, task.email with
  | some p, some email =>
    match p.send email with
    | .error _ => some ((p.name, email), task.markAsFailed, false)
    | .ok _ => some ((p.name, email), task.markAsSent, true)
  | _, _ => none

/-- Outcome of following one task through DefaultEmailQueue.ProcessQueue
until it leaves the queue for good: final task state, number of provider
send attempts, number of admin alerts produced (the queue loop never
produces any). -/
structure QueueRun where
  task : EmailTask
  sendAttempts : Nat
  adminAlerts : Nat

deriving Repr, DecidableEq

/-- The lifecycle of a single task under DefaultEmailQueue.ProcessQueue with
the queue's email service fixed to `p`: pop (skipping completed tasks), run
`processTask`, and on error run the ShouldRetry / IncrementRetry /
retryFailedTask sequence exactly as the loop body does, following the
re-enqueued task recursively.  Fuel bounds the number of iterations. -/
def processQueueOnTask (p : Provider) (uuid : String) (now : Nat) :
    Nat → EmailTask → QueueRun
  | 0, t => ⟨t, 0, 0⟩
  | fuel + 1, t =>
    if t.isCompleted then ⟨t, 0, 0⟩
    else
      match t.email with
      | none => ⟨t, 0, 0⟩
      | some email =>
        match p.send email with
        | .ok _ => ⟨t.markAsSent, 1, 0⟩
        | .error _ =>
          let t1 := t.markAsFailed
          if t1.shouldRetry then
            let t2 := t1.incrementRetry
            if t2.shouldRetry then
              let r := processQueueOnTask p uuid now fuel (enqueueTaskFields uuid now t2)
              ⟨r.task, r.sendAttempts + 1, r.adminAlerts⟩
            else ⟨t2.markAsFailed, 1, 0⟩
          else ⟨t1.markAsFailed, 1, 0⟩

-- Propositional equality on `Except` results is decidable.
deriving instance DecidableEq for Except

/-! ## Concrete fixtures used by witnesses and counterexamples -/

/-- A concrete valid message (the spec's `to=["a@x.com"], subject="S",
body="B"`). -/
def cEmail : Email :=
  { id := "", «to» := ["a@x.com"], cc := [], bcc := [], fromAddr := "",
    subject := "S", body := "B", attachments := [], metadata := [], sentAt := 0 }

/-- The same message with a blank subject: fails validation. -/
def cBadEmail : Email :=
  { cEmail with subject := "" }

/-- An SMTP provider stub whose sends always fail. -/
def failProvider : Provider :=
  { name := "smtp",
    send := fun _ =>
      .error "failed to send email: all SMTP connection methods failed, last error: connection refused" }

/-- A second provider stub, as after `SetDefaultProvider("sendgrid")`. -/
def sendgridProvider : Provider :=
  { name := "sendgrid",
    send := fun _ => .ok { messageID := "sg-1", status := "sent", sentAt := 0 } }

/-- Manager with the queue wired and the failing SMTP stub as default. -/
def cMgr : ManagerState :=
  { maxRetries := 3, defaultProvider := some failProvider, queueWired := true }

/-- Manager whose email queue has not been wired. -/
def cMgrUnwired : ManagerState :=
  { maxRetries := 3, defaultProvider := some failProvider, queueWired := false }

/-- Manager after the default provider was swapped to "sendgrid". -/
def cMgrSwapped : ManagerState :=
  { maxRetries := 3, defaultProvider := some sendgridProvider, queueWired := true }

/-- The task QueueEmail builds for `cEmail` with overrides priority 2,
maxRetries 2 (IDs "prep1"/"enq1", time 1). -/
def cTask : EmailTask :=
  { taskID := "enq1",
    email := some { cEmail with sentAt := 1 },
    providerName := "smtp", retryCount := 0, maxRetries := 2,
    requestedAt := 0, createdAt := 1, status := "queued", priority := 2 }

/-- A lower-urgency copy of `cTask` (larger priority number). -/
def cTaskLow : EmailTask :=
  { cTask with priority := 5 }

/-- Decidability of the heap invariant, for concrete evaluation. -/
instance (a : List EmailTask) : Decidable (IsMinHeap a) := by
  unfold IsMinHeap
  exact Nat.decidableBallLT a.length _

/-! ## Claim C9: retry interval lookup never panics and clamps to the last
interval -/

theorem newRetryPolicy_intervals_ne_nil (mr : Int) (ivs : List Int) :
    (newRetryPolicy mr ivs).retryIntervals ≠ [] := by
  unfold newRetryPolicy
  cases ivs with
  | nil => simp [defaultRetryIntervals]
  | cons a l => simp

/-- C9: for a policy built by `NewRetryPolicy` (which substitutes the
default 1/5/10-minute intervals when the supplied list is empty) and any
attempt number at least 0, `GetRetryInterval` returns (without panicking)
the interval at that index when in range and the last interval otherwise. -/
theorem c9_retry_interval_total (mr : Int) (ivs : List Int) (attempt : Int)
    (h : 0 ≤ attempt) :
    getRetryInterval (newRetryPolicy mr ivs) attempt =
      some (if attempt < ((newRetryPolicy mr ivs).retryIntervals.length : Int)
        then (newRetryPolicy mr ivs).retryIntervals.getD attempt.toNat 0
        else (newRetryPolicy mr ivs).retryIntervals.getLastD 0) := by
  have hne := newRetryPolicy_intervals_ne_nil mr ivs
  set L := (newRetryPolicy mr ivs).retryIntervals with hL
  unfold getRetryInterval
  rw [← hL]
  by_cases hlt : attempt < (L.length : Int)
  · have hnotle : ¬ ((L.length : Int) ≤ attempt) := not_le.mpr hlt
    simp only [if_neg hnotle, if_neg (not_lt.mpr h), if_pos hlt]
    have hlt' : attempt.toNat < L.length := by
      omega
    rw [List.get?_eq_getElem?, List.getElem?_eq_getElem hlt', List.getD_eq_getElem _ _ hlt']
  · have hle : (L.length : Int) ≤ attempt := not_lt.mp hlt
    simp only [if_pos hle, if_neg hlt]
    have hx := List.getLast?_eq_getLast_of_ne_nil hne
    simp [List.getLastD_eq_getLast?, hx]

/-- Witness for C9 at a concrete input: policy from an empty interval list,
attempt 5 (beyond the three defaults) yields the 10-minute interval. -/
theorem c9_retry_interval_total_witness :
    getRetryInterval (newRetryPolicy 3 []) 5 = some 600000000000 := by
  have h := c9_retry_interval_total 3 [] 5 (by decide)
  simpa [newRetryPolicy, defaultRetryIntervals] using h

/-! ## Basic facts about swap, sift-up and sift-down -/

theorem length_heapSwap (a : List EmailTask) (i j : Nat) :
    (heapSwap a i j).length = a.length := by
  unfold heapSwap
  split <;> simp

theorem getElem?_heapSwap_other (a : List EmailTask) (i j k : Nat)
    (hki : k ≠ i) (hkj : k ≠ j) : (heapSwap a i j)[k]? = a[k]? := by
  unfold heapSwap
  split
  · rw [List.getElem?_set_ne (fun h => hkj h.symm), List.getElem?_set_ne (fun h => hki h.symm)]
  · rfl

theorem priAt_heapSwap_other (a : List EmailTask) (i j k : Nat)
    (hki : k ≠ i) (hkj : k ≠ j) : priAt (heapSwap a i j) k = priAt a k := by
  unfold priAt
  rw [getElem?_heapSwap_other a i j k hki hkj]

theorem priAt_eq (a : List EmailTask) (i : Nat) (h : i < a.length) :
    priAt a i = a[i].priority := by
  unfold priAt
  rw [List.getElem?_eq_getElem h]
  rfl

theorem getElem?_heapSwap_snd (a : List EmailTask) (i j : Nat)
    (hi : i < a.length) (hj : j < a.length) :
    (heapSwap a i j)[j]? = some a[i] := by
  unfold heapSwap
  rw [List.getElem?_eq_getElem hi, List.getElem?_eq_getElem hj]
  exact List.getElem?_set_self (by simpa using hj)

theorem getElem?_heapSwap_fst (a : List EmailTask) (i j : Nat)
    (hi : i < a.length) (hj : j < a.length) :
    (heapSwap a i j)[i]? = some a[j] := by
  by_cases hij : i = j
  · subst hij
    exact getElem?_heapSwap_snd a i i hi hi
  · unfold heapSwap
    rw [List.getElem?_eq_getElem hi, List.getElem?_eq_getElem hj]
    show ((a.set i a[j]).set j a[i])[i]? = some a[j]
    rw [List.getElem?_set_ne (fun h => hij h.symm)]
    exact List.getElem?_set_self (by simpa using hi)

theorem priAt_heapSwap_snd (a : List EmailTask) (i j : Nat)
    (hi : i < a.length) (hj : j < a.length) :
    priAt (heapSwap a i j) j = priAt a i := by
  unfold priAt
  rw [getElem?_heapSwap_snd a i j hi hj, List.getElem?_eq_getElem hi]

theorem priAt_heapSwap_fst (a : List EmailTask) (i j : Nat)
    (hi : i < a.length) (hj : j < a.length) :
    priAt (heapSwap a i j) i = priAt a j := by
  unfold priAt
  rw [getElem?_heapSwap_fst a i j hi hj, List.getElem?_eq_getElem hj]

theorem set_self_getElem (l : List EmailTask) (i : Nat) (h : i < l.length) :
    l.set i l[i] = l := by
  apply List.ext_getElem?
  intro k
  by_cases hk : k = i
  · subst hk
    rw [List.getElem?_set_self h, List.getElem?_eq_getElem h]
  · rw [List.getElem?_set_ne (fun he => hk he.symm)]

theorem cons_set_perm (x : EmailTask) :
    ∀ (t : List EmailTask) (k : Nat), (hk : k < t.length) →
      List.Perm (t[k] :: t.set k x) (x :: t)
  | a :: t', 0, _ => List.Perm.swap x a t'
  | a :: t', k + 1, hk => by
    have hk' : k < t'.length := by simpa using hk
    have ih := cons_set_perm x t' k hk'
    have h1 : List.Perm (t'[k] :: a :: t'.set k x) (a :: t'[k] :: t'.set k x) :=
      List.Perm.swap a t'[k] _
    have h2 : List.Perm (a :: t'[k] :: t'.set k x) (a :: x :: t') := ih.cons a
    have h3 : List.Perm (a :: x :: t') (x :: a :: t') := List.Perm.swap x a t'
    have h0 : (a :: t')[k + 1] :: (a :: t').set (k + 1) x
        = t'[k] :: a :: t'.set k x := by simp
    rw [h0]
    exact h1.trans (h2.trans h3)

theorem swap_sets_perm :
    ∀ (a : List EmailTask) (i j : Nat) (hi : i < a.length) (hj : j < a.length),
      i ≠ j → List.Perm ((a.set i a[j]).set j a[i]) a
  | [], _, _, hi, _, _ => absurd hi (by simp)
  | _ :: _, 0, 0, _, _, hij => absurd rfl hij
  | h :: t, 0, j + 1, _, hj, _ => by
    have hj' : j < t.length := by simpa using hj
    simpa using cons_set_perm h t j hj'
  | h :: t, i + 1, 0, hi, _, _ => by
    have hi' : i < t.length := by simpa using hi
    simpa using cons_set_perm h t i hi'
  | h :: t, i + 1, j + 1, hi, hj, hij => by
    have hi' : i < t.length := by simpa using hi
    have hj' : j < t.length := by simpa using hj
    have hij' : i ≠ j := fun he => hij (by rw [he])
    have ih := swap_sets_perm t i j hi' hj' hij'
    simpa using ih.cons h

theorem heapSwap_perm (a : List EmailTask) (i j : Nat) :
    List.Perm (heapSwap a i j) a := by
  unfold heapSwap
  split
  next x y hx hy =>
    have hi : i < a.length := by
      by_contra hlt
      rw [List.getElem?_eq_none (by omega)] at hx
      exact Option.noConfusion hx
    have hj : j < a.length := by
      by_contra hlt
      rw [List.getElem?_eq_none (by omega)] at hy
      exact Option.noConfusion hy
    have hx' : x = a[i] := by
      rw [List.getElem?_eq_getElem hi] at hx
      exact (Option.some.inj hx).symm
    have hy' : y = a[j] := by
      rw [List.getElem?_eq_getElem hj] at hy
      exact (Option.some.inj hy).symm
    subst hx' hy'
    by_cases hij : i = j
    · subst hij
      rw [List.set_set, set_self_getElem a i hi]
    · exact swap_sets_perm a i j hi hj hij
  next => exact List.Perm.refl a

theorem length_heapUp (a : List EmailTask) (j : Nat) :
    (heapUp a j).length = a.length := by
  induction a, j using heapUp.induct with
  | case1 a j h => rw [heapUp, dif_pos h]
  | case2 a j h ih =>
    rw [heapUp, dif_neg h]
    rw [ih, length_heapSwap]

theorem heapUp_perm (a : List EmailTask) (j : Nat) :
    List.Perm (heapUp a j) a := by
  induction a, j using heapUp.induct with
  | case1 a j h =>
    rw [heapUp, dif_pos h]
  | case2 a j h ih =>
    rw [heapUp, dif_neg h]
    exact ih.trans (heapSwap_perm a _ j)

theorem length_heapDown (a : List EmailTask) (i n : Nat) :
    (heapDown a i n).length = a.length := by
  induction a, i, n using heapDown.induct with
  | case1 a i n h1 => rw [heapDown, dif_pos h1]
  | case2 a i n h1 h2 =>
    rw [heapDown, dif_neg h1, dif_pos h2]
  | case3 a i n h1 h2 ih =>
    rw [heapDown, dif_neg h1, dif_neg h2]
    rw [ih, length_heapSwap]

theorem heapDown_perm (a : List EmailTask) (i n : Nat) :
    List.Perm (heapDown a i n) a := by
  induction a, i, n using heapDown.induct with
  | case1 a i n h1 => rw [heapDown, dif_pos h1]
  | case2 a i n h1 h2 =>
    rw [heapDown, dif_neg h1, dif_pos h2]
  | case3 a i n h1 h2 ih =>
    rw [heapDown, dif_neg h1, dif_neg h2]
    exact ih.trans (heapSwap_perm a i _)

theorem heapLess_false (a : List EmailTask) (p q : Nat)
    (hp : p < a.length) (hq : q < a.length) :
    heapLess a p q = false ↔ priAt a q ≤ priAt a p := by
  unfold heapLess
  rw [List.getElem?_eq_getElem hp, List.getElem?_eq_getElem hq,
    priAt_eq a p hp, priAt_eq a q hq]
  simp

theorem heapLess_true (a : List EmailTask) (p q : Nat)
    (hp : p < a.length) (hq : q < a.length) :
    heapLess a p q = true ↔ priAt a p < priAt a q := by
  unfold heapLess
  rw [List.getElem?_eq_getElem hp, List.getElem?_eq_getElem hq,
    priAt_eq a p hp, priAt_eq a q hq]
  simp

theorem minChild_bounds (a : List EmailTask) (i n : Nat) :
    2 * i + 1 ≤ minChild a i n ∧ minChild a i n ≤ 2 * i + 2 := by
  unfold minChild
  split <;> omega

theorem minChild_lt (a : List EmailTask) (i n : Nat) (h : ¬ n ≤ 2 * i + 1) :
    minChild a i n < n := by
  unfold minChild
  split <;> omega

theorem minChild_le_children (a : List EmailTask) (i n : Nat)
    (h1 : ¬ n ≤ 2 * i + 1) (hn : n ≤ a.length) :
    ∀ c, ((c - 1) / 2 = i ∧ 0 < c) → c < n →
      priAt a (minChild a i n) ≤ priAt a c := by
  intro c hc hcn
  have hc' : c = 2 * i + 1 ∨ c = 2 * i + 2 := by omega
  have hlt1 : 2 * i + 1 < a.length := by omega
  unfold minChild
  by_cases hcond : 2 * i + 2 < n ∧ heapLess a (2 * i + 2) (2 * i + 1) = true
  · rw [if_pos hcond]
    have hlt2 : 2 * i + 2 < a.length := by omega
    have hlt := (heapLess_true a (2 * i + 2) (2 * i + 1) hlt2 hlt1).mp hcond.2
    rcases hc' with rfl | rfl
    · exact le_of_lt hlt
    · exact le_refl _
  · rw [if_neg hcond]
    rcases hc' with rfl | rfl
    · exact le_refl _
    · have hlt2 : 2 * i + 2 < a.length := by omega
      have hb : heapLess a (2 * i + 2) (2 * i + 1) = false := by
        rcases Bool.eq_false_or_eq_true (heapLess a (2 * i + 2) (2 * i + 1)) with hb | hb
        · exact absurd ⟨by omega, hb⟩ hcond
        · exact hb
      exact (heapLess_false a (2 * i + 2) (2 * i + 1) hlt2 hlt1).mp hb

theorem heapUp_minHeap (a : List EmailTask) (j : Nat) :
    j < a.length → UpOk a j → IsMinHeap (heapUp a j) := by
  induction a, j using heapUp.induct with
  | case1 a j h =>
    intro hj hInv
    rw [heapUp, dif_pos h]
    intro k hk hk0
    by_cases hkj : k = j
    · subst hkj
      rcases h with h | h
      · omega
      · have hp : (k - 1) / 2 < a.length := by omega
        exact (heapLess_false a k ((k - 1) / 2) hk hp).mp h
    · exact hInv.1 k hk hk0 hkj
  | case2 a j h ih =>
    intro hj hInv
    rw [heapUp, dif_neg h]
    rw [not_or] at h
    obtain ⟨hij, hlessb⟩ := h
    have hj0 : 0 < j := by omega
    have hi_lt_j : (j - 1) / 2 < j := by omega
    have hi : (j - 1) / 2 < a.length := by omega
    have hless : heapLess a j ((j - 1) / 2) = true := by
      rcases Bool.eq_false_or_eq_true (heapLess a j ((j - 1) / 2)) with hb | hb
      · exact hb
      · exact absurd hb hlessb
    have hlt : priAt a j < priAt a ((j - 1) / 2) :=
      (heapLess_true a j ((j - 1) / 2) hj hi).mp hless
    apply ih
    · rw [length_heapSwap]
      exact hi
    · constructor
      · intro k hk hk0 hki
        rw [length_heapSwap] at hk
        by_cases hkj : k = j
        · subst hkj
          rw [priAt_heapSwap_fst a _ k hi hk, priAt_heapSwap_snd a _ k hi hk]
          exact le_of_lt hlt
        · have hkother : priAt (heapSwap a ((j - 1) / 2) j) k = priAt a k :=
            priAt_heapSwap_other a _ j k hki hkj
          by_cases hpki : (k - 1) / 2 = (j - 1) / 2
          · rw [hpki, priAt_heapSwap_fst a _ j hi hj, hkother]
            have h1 := hInv.1 k hk hk0 hkj
            rw [hpki] at h1
            exact le_of_lt (lt_of_lt_of_le hlt h1)
          · by_cases hpkj : (k - 1) / 2 = j
            · rw [hpkj, priAt_heapSwap_snd a _ j hi hj, hkother]
              have h2 := hInv.2 k hk hk0 hpkj hj0
              exact h2
            · rw [hkother, priAt_heapSwap_other a _ j _ hpki hpkj]
              exact hInv.1 k hk hk0 hkj
      · intro c hc hc0 hpc hi0
        rw [length_heapSwap] at hc
        have hp_lt : ((j - 1) / 2 - 1) / 2 < (j - 1) / 2 := by omega
        have hp_ne_i : ((j - 1) / 2 - 1) / 2 ≠ (j - 1) / 2 := by omega
        have hp_ne_j : ((j - 1) / 2 - 1) / 2 ≠ j := by omega
        rw [priAt_heapSwap_other a _ j _ hp_ne_i hp_ne_j]
        have hparent := hInv.1 ((j - 1) / 2) hi hi0 hij
        by_cases hcj : c = j
        · subst hcj
          rw [priAt_heapSwap_snd a _ c hi hj]
          exact hparent
        · have hc_ne_i : c ≠ (j - 1) / 2 := by omega
          rw [priAt_heapSwap_other a _ j c hc_ne_i hcj]
          have hchild := hInv.1 c hc hc0 hcj
          rw [hpc] at hchild
          exact hparent.trans hchild

theorem priAt_append_left (a : List EmailTask) (x : EmailTask) (k : Nat)
    (hk : k < a.length) : priAt (a ++ [x]) k = priAt a k := by
  unfold priAt
  rw [List.getElem?_append_left hk]

theorem heapPush_minHeap (a : List EmailTask) (x : EmailTask)
    (h : IsMinHeap a) : IsMinHeap (heapPush a x) := by
  unfold heapPush
  apply heapUp_minHeap
  · simp
  · constructor
    · intro k hk hk0 hkj
      simp only [List.length_append, List.length_cons, List.length_nil] at hk
      have hk' : k < a.length := by omega
      have hpk' : (k - 1) / 2 < a.length := by omega
      rw [priAt_append_left a x k hk', priAt_append_left a x _ hpk']
      exact h k hk' hk0
    · intro c hc hc0 hpc hj0
      simp only [List.length_append, List.length_cons, List.length_nil] at hc
      omega

theorem length_heapPush (a : List EmailTask) (x : EmailTask) :
    (heapPush a x).length = a.length + 1 := by
  unfold heapPush
  rw [length_heapUp]
  simp

theorem heapPush_perm (a : List EmailTask) (x : EmailTask) :
    List.Perm (heapPush a x) (x :: a) := by
  unfold heapPush
  exact (heapUp_perm _ _).trans (List.perm_append_singleton x a)

theorem minHeap_root_le (a : List EmailTask) (h : IsMinHeap a) :
    ∀ k, k < a.length → priAt a 0 ≤ priAt a k := by
  intro k
  induction k using Nat.strong_induction_on with
  | _ k ih =>
    intro hk
    rcases Nat.eq_zero_or_pos k with rfl | hk0
    · exact le_refl _
    · have hpar : (k - 1) / 2 < k := by omega
      exact (ih _ hpar (by omega)).trans (h k hk hk0)

theorem heapDown_minHeapUpTo (a : List EmailTask) (i n : Nat) :
    n ≤ a.length → i < n → DownOk a i n → MinHeapUpTo (heapDown a i n) n := by
  induction a, i, n using heapDown.induct with
  | case1 a i n h1 =>
    intro hn hin hInv
    rw [heapDown, dif_pos h1]
    intro k hk hk0
    by_cases hpk : (k - 1) / 2 = i
    · omega
    · exact hInv.1 k hk hk0 hpk
  | case2 a i n h1 h2 =>
    intro hn hin hInv
    rw [heapDown, dif_neg h1, dif_pos h2]
    intro k hk hk0
    by_cases hpk : (k - 1) / 2 = i
    · rw [hpk]
      have hj : minChild a i n < a.length := lt_of_lt_of_le (minChild_lt a i n h1) hn
      have hi' : i < a.length := lt_of_lt_of_le hin hn
      have hle := (heapLess_false a (minChild a i n) i hj hi').mp h2
      exact hle.trans (minChild_le_children a i n h1 hn k ⟨hpk, hk0⟩ hk)
    · exact hInv.1 k hk hk0 hpk
  | case3 a i n h1 h2 ih =>
    intro hn hin hInv
    rw [heapDown, dif_neg h1, dif_neg h2]
    have hjn : minChild a i n < n := minChild_lt a i n h1
    have hij : i < minChild a i n := by
      have := minChild_bounds a i n
      omega
    have hj' : minChild a i n < a.length := lt_of_lt_of_le hjn hn
    have hi' : i < a.length := lt_of_lt_of_le hin hn
    have hpj : (minChild a i n - 1) / 2 = i := by
      have := minChild_bounds a i n
      omega
    have hless : heapLess a (minChild a i n) i = true := by
      rcases Bool.eq_false_or_eq_true (heapLess a (minChild a i n) i) with hb | hb
      · exact hb
      · exact absurd hb h2
    have hlt : priAt a (minChild a i n) < priAt a i :=
      (heapLess_true a (minChild a i n) i hj' hi').mp hless
    apply ih
    · rw [length_heapSwap]; exact hn
    · exact hjn
    · constructor
      · intro k hk hk0 hpk
        by_cases hkj : k = minChild a i n
        · subst hkj
          rw [hpj, priAt_heapSwap_fst a i _ hi' hj', priAt_heapSwap_snd a i _ hi' hj']
          exact le_of_lt hlt
        · by_cases hki : k = i
          · rw [hki]
            have hi0 : 0 < i := hki ▸ hk0
            have hpi_ne_i : (i - 1) / 2 ≠ i := by omega
            have hpi_ne_j : (i - 1) / 2 ≠ minChild a i n := by omega
            rw [priAt_heapSwap_fst a i _ hi' hj',
              priAt_heapSwap_other a i _ _ hpi_ne_i hpi_ne_j]
            exact hInv.2 (minChild a i n) hjn (by omega) hpj hi0
          · have hkother : priAt (heapSwap a i (minChild a i n)) k = priAt a k :=
              priAt_heapSwap_other a i _ k hki hkj
            by_cases hpki : (k - 1) / 2 = i
            · rw [hpki, priAt_heapSwap_fst a i _ hi' hj', hkother]
              exact minChild_le_children a i n h1 hn k ⟨hpki, hk0⟩ hk
            · rw [hkother, priAt_heapSwap_other a i _ _ hpki hpk]
              exact hInv.1 k hk hk0 hpki
      · intro c hc hc0 hpc hj0
        have hcj : c ≠ minChild a i n := by omega
        have hci : c ≠ i := by omega
        rw [hpj, priAt_heapSwap_fst a i _ hi' hj',
          priAt_heapSwap_other a i _ c hci hcj]
        have hji : minChild a i n ≠ i := by omega
        have := hInv.1 c hc hc0 (by omega)
        rw [hpc] at this
        exact this

theorem getElem?_heapDown_ge (a : List EmailTask) (i n k : Nat) :
    n ≤ k → (heapDown a i n)[k]? = a[k]? := by
  induction a, i, n using heapDown.induct with
  | case1 a i n h1 =>
    intro hk
    rw [heapDown, dif_pos h1]
  | case2 a i n h1 h2 =>
    intro hk
    rw [heapDown, dif_neg h1, dif_pos h2]
  | case3 a i n h1 h2 ih =>
    intro hk
    rw [heapDown, dif_neg h1, dif_neg h2, ih hk]
    have hki : k ≠ i := by omega
    have hkj : k ≠ minChild a i n := by
      have := minChild_lt a i n h1
      omega
    exact getElem?_heapSwap_other a i _ k hki hkj

theorem heapPop_correct (a : List EmailTask) (h : IsMinHeap a) (hne : a ≠ []) :
    ∃ t rest, heapPop a = some (t, rest) ∧
      (∀ y ∈ a, t.priority ≤ y.priority) ∧
      List.Perm (t :: rest) a ∧ IsMinHeap rest := by
  have hlen : 0 < a.length := List.length_pos.mpr hne
  have hemp : a.isEmpty = false := by
    cases a with
    | nil => exact absurd rfl hne
    | cons x xs => rfl
  set n := a.length - 1 with hn
  have hnlt : n < a.length := by omega
  set a1 := heapSwap a 0 n with ha1
  set b := heapDown a1 0 n with hb
  have hlen1 : a1.length = a.length := length_heapSwap a 0 n
  have hlenb : b.length = a.length := by
    rw [hb, length_heapDown, hlen1]
  have hroot : b[n]? = some a[0] := by
    rw [hb, getElem?_heapDown_ge a1 0 n n (le_refl n), ha1]
    exact getElem?_heapSwap_snd a 0 n hlen hnlt
  have hlast : b.getLast? = some a[0] := by
    rw [List.getLast?_eq_getElem?, hlenb, ← hn, hroot]
  have hpop : heapPop a = some (a[0], b.dropLast) := by
    unfold heapPop
    rw [if_neg (by rw [hemp]; exact Bool.false_ne_true)]
    rw [← hn, ← ha1, ← hb, hlast]
  refine ⟨a[0], b.dropLast, hpop, ?_, ?_, ?_⟩
  · intro y hy
    obtain ⟨k, hk, rfl⟩ := List.mem_iff_getElem.mp hy
    have := minHeap_root_le a h k hk
    rw [priAt_eq a 0 hlen, priAt_eq a k hk] at this
    exact this
  · have hbne : b ≠ [] := by
      intro hb0
      rw [hb0] at hlenb
      simp at hlenb
      omega
    have hdrop : b.dropLast ++ [b.getLast hbne] = b := List.dropLast_append_getLast hbne
    have hgl : b.getLast hbne = a[0] := by
      have := List.getLast?_eq_getLast b hbne
      rw [hlast] at this
      exact (Option.some.inj this).symm
    have hperm1 : List.Perm (a[0] :: b.dropLast) b := by
      have h1 : List.Perm (b.dropLast ++ [b.getLast hbne]) (b.getLast hbne :: b.dropLast) :=
        List.perm_append_singleton _ _
      have h2 : List.Perm b (b.getLast hbne :: b.dropLast) := by
        conv_lhs => rw [← hdrop]
        exact h1
      exact hgl ▸ h2.symm
    have hperm2 : List.Perm b a := by
      rw [hb, ha1]
      exact (heapDown_perm _ _ _).trans (heapSwap_perm a 0 n)
    exact hperm1.trans hperm2
  · intro k hk hk0
    have hklen : k < n := by
      rw [List.length_dropLast, hlenb] at hk
      omega
    have hup : MinHeapUpTo b n := by
      rw [hb]
      apply heapDown_minHeapUpTo a1 0 n (by omega) (by omega)
      constructor
      · intro m hm hm0 hpm
        have hmne0 : m ≠ 0 := by omega
        have hmnen : m ≠ n := by omega
        have hpne : (m - 1) / 2 ≠ n := by omega
        rw [ha1, priAt_heapSwap_other a 0 n m hmne0 hmnen,
          priAt_heapSwap_other a 0 n _ hpm hpne]
        exact h m (by omega) hm0
      · intro c hc hc0 hpc hi0
        omega
    have hgetd : ∀ m, m < n → priAt b.dropLast m = priAt b m := by
      intro m hm
      unfold priAt
      rw [List.getElem?_dropLast, if_pos (by omega)]
    rw [hgetd k hklen, hgetd _ (by omega)]
    exact hup k hklen hk0

theorem heapPop_nil : heapPop [] = none := rfl

theorem heapPop_some (a : List EmailTask) (t : EmailTask) (rest : List EmailTask)
    (h : heapPop a = some (t, rest)) :
    List.Perm (t :: rest) a ∧ rest.length + 1 = a.length := by
  unfold heapPop at h
  by_cases he : a.isEmpty
  · rw [if_pos he] at h
    exact Option.noConfusion h
  · rw [if_neg he] at h
    have hane : a ≠ [] := by
      cases a with
      | nil => exact absurd rfl he
      | cons x xs => exact List.cons_ne_nil x xs
    have hlen : 0 < a.length := List.length_pos.mpr hane
    set b := heapDown (heapSwap a 0 (a.length - 1)) 0 (a.length - 1) with hb
    have hlenb : b.length = a.length := by
      rw [hb, length_heapDown, length_heapSwap]
    rcases hgl : b.getLast? with _ | t'
    · rw [hgl] at h
      exact Option.noConfusion h
    · rw [hgl] at h
      obtain ⟨ht, hr⟩ := Prod.mk.inj (Option.some.inj h)
      have hbne : b ≠ [] := by
        intro h0
        rw [h0] at hlenb
        simp at hlenb
        omega
      have hgl' : b.getLast hbne = t' := by
        have := List.getLast?_eq_getLast b hbne
        rw [hgl] at this
        exact (Option.some.inj this).symm
      have hdrop : b.dropLast ++ [b.getLast hbne] = b := List.dropLast_append_getLast hbne
      constructor
      · rw [← ht, ← hr]
        have h1 : List.Perm (b.dropLast ++ [b.getLast hbne]) (b.getLast hbne :: b.dropLast) :=
          List.perm_append_singleton _ _
        have h2 : List.Perm b (b.getLast hbne :: b.dropLast) := by
          conv_lhs => rw [← hdrop]
          exact h1
        have h3 : List.Perm b a := by
          rw [hb]
          exact (heapDown_perm _ _ _).trans (heapSwap_perm a 0 _)
        exact hgl' ▸ (h2.symm.trans h3)
      · rw [← hr, List.length_dropLast, hlenb]
        omega

theorem runOps_minHeap (ops : List QOp) :
    ∀ h : List EmailTask, IsMinHeap h → IsMinHeap (runOps ops h).1 := by
  induction ops with
  | nil =>
    intro h hh
    exact hh
  | cons op ops ih =>
    intro h hh
    cases op with
    | push t => exact ih _ (heapPush_minHeap h t hh)
    | pop =>
      rcases hp : heapPop h with _ | ⟨t, rest⟩
      · simpa only [runOps, hp] using ih h hh
      · have hne : h ≠ [] := by
          intro h0
          subst h0
          rw [heapPop_nil] at hp
          exact Option.noConfusion hp
        obtain ⟨t', rest', hpop, _, _, hrest⟩ := heapPop_correct h hh hne
        have heq := hp.symm.trans hpop
        obtain ⟨h1, h2⟩ := Prod.mk.inj (Option.some.inj heq)
        subst h1
        subst h2
        simpa only [runOps, hp] using ih rest hrest

theorem drainHeapF_mem (fuel : Nat) :
    ∀ a y, y ∈ drainHeapF fuel a → y ∈ a := by
  induction fuel with
  | zero =>
    intro a y hy
    exact absurd hy (List.not_mem_nil y)
  | succ fuel ih =>
    intro a y hy
    rcases hp : heapPop a with _ | ⟨t, rest⟩
    · rw [drainHeapF, hp] at hy
      exact absurd hy (List.not_mem_nil y)
    · rw [drainHeapF, hp] at hy
      have hperm := (heapPop_some a t rest hp).1
      rcases List.mem_cons.mp hy with rfl | hy'
      · exact hperm.mem_iff.mp (List.mem_cons_self y rest)
      · exact hperm.mem_iff.mp (List.mem_cons_of_mem t (ih rest y hy'))

theorem drainHeapF_sorted (fuel : Nat) :
    ∀ a, IsMinHeap a →
      List.Chain' (fun x y : EmailTask => x.priority ≤ y.priority) (drainHeapF fuel a) := by
  induction fuel with
  | zero =>
    intro a _
    exact List.chain'_nil
  | succ fuel ih =>
    intro a ha
    rcases hp : heapPop a with _ | ⟨t, rest⟩
    · rw [drainHeapF, hp]
      exact List.chain'_nil
    · rw [drainHeapF, hp]
      have hne : a ≠ [] := by
        intro h0
        subst h0
        rw [heapPop_nil] at hp
        exact Option.noConfusion hp
      obtain ⟨t', rest', hpop, hmin, hperm, hrest⟩ := heapPop_correct a ha hne
      have heq := hp.symm.trans hpop
      obtain ⟨h1, h2⟩ := Prod.mk.inj (Option.some.inj heq)
      subst h1
      subst h2
      apply List.chain'_cons'.mpr
      constructor
      · intro y hy
        have hymem : y ∈ drainHeapF fuel rest := List.mem_of_mem_head? hy
        have : y ∈ rest := drainHeapF_mem fuel rest y hymem
        exact hmin y (hperm.mem_iff.mp (List.mem_cons_of_mem t this))
      · exact ih rest hrest

theorem drainHeapF_length (fuel : Nat) :
    ∀ a, IsMinHeap a → a.length = fuel → (drainHeapF fuel a).length = fuel := by
  induction fuel with
  | zero =>
    intro a _ _
    rfl
  | succ fuel ih =>
    intro a ha hlen
    have hne : a ≠ [] := by
      intro h0
      subst h0
      simp at hlen
    obtain ⟨t, rest, hpop, _, _, hrest⟩ := heapPop_correct a ha hne
    rw [drainHeapF, hpop]
    have hrl : rest.length = fuel := by
      have := (heapPop_some a t rest hpop).2
      omega
    simp only [List.length_cons]
    rw [ih rest hrest hrl]

theorem foldl_heapPush_minHeap (ts : List EmailTask) :
    ∀ h : List EmailTask, IsMinHeap h →
      IsMinHeap (ts.foldl heapPush h) ∧
        (ts.foldl heapPush h).length = h.length + ts.length := by
  induction ts with
  | nil =>
    intro h hh
    exact ⟨hh, rfl⟩
  | cons t ts ih =>
    intro h hh
    obtain ⟨h1, h2⟩ := ih (heapPush h t) (heapPush_minHeap h t hh)
    refine ⟨h1, ?_⟩
    rw [List.foldl_cons, h2, length_heapPush]
    simp only [List.length_cons]
    omega

theorem nil_minHeap : IsMinHeap [] := by
  intro j hj hj0
  simp at hj

/-! ## Claim C4: the priority queue pops minima -/

/-- C4: a pop from a heap-invariant task queue returns a task of minimal
priority among those currently enqueued (the remainder being a permutation
of the rest, still heap-invariant); the heap invariant holds after every
sequence of Enqueue pushes and ProcessQueue pops from the empty queue; and
pushing N tasks then popping N times yields all N tasks in non-decreasing
priority order. -/
theorem c4_priority_queue_min :
    (∀ h : List EmailTask, IsMinHeap h → ∀ t rest, heapPop h = some (t, rest) →
      (∀ y ∈ h, t.priority ≤ y.priority) ∧ List.Perm (t :: rest) h ∧ IsMinHeap rest) ∧
    (∀ ops : List QOp, IsMinHeap (runOps ops []).1) ∧
    (∀ ts : List EmailTask,
      List.Chain' (fun x y : EmailTask => x.priority ≤ y.priority)
        (drainHeap (ts.foldl heapPush [])) ∧
      (drainHeap (ts.foldl heapPush [])).length = ts.length) := by
  refine ⟨?_, ?_, ?_⟩
  · intro h hh t rest hp
    have hne : h ≠ [] := by
      intro h0
      subst h0
      rw [heapPop_nil] at hp
      exact Option.noConfusion hp
    obtain ⟨t', rest', hpop, hmin, hperm, hrest⟩ := heapPop_correct h hh hne
    have heq := hp.symm.trans hpop
    obtain ⟨h1, h2⟩ := Prod.mk.inj (Option.some.inj heq)
    rw [h1, h2]
    exact ⟨hmin, hperm, hrest⟩
  · intro ops
    exact runOps_minHeap ops [] nil_minHeap
  · intro ts
    obtain ⟨hH, hL⟩ := foldl_heapPush_minHeap ts [] nil_minHeap
    constructor
    · exact drainHeapF_sorted _ _ hH
    · unfold drainHeap
      rw [drainHeapF_length _ _ hH rfl]
      simpa using hL

/-- Witness for C4 at a concrete two-task queue: the pop returns the
priority-2 task ahead of the priority-5 task. -/
theorem c4_priority_queue_min_witness :
    (∀ y ∈ [cTask, cTaskLow], cTask.priority ≤ y.priority) ∧
    List.Perm (cTask :: [cTaskLow]) [cTask, cTaskLow] ∧ IsMinHeap [cTaskLow] :=
  c4_priority_queue_min.1 [cTask, cTaskLow] (by decide) cTask [cTaskLow]
    (by simp [heapPop, heapSwap, heapDown, heapLess, cTask, cTaskLow, cEmail])

/-! ## Claim C10: Enqueue's frame -/

/-- C10: every Enqueue — first enqueues and retry re-enqueues alike —
overwrites exactly the task's TaskID (with the fresh UUID) and CreatedAt
(with the current time), leaving Email, ProviderName, Priority, RetryCount,
MaxRetries, Status (and RequestedAt) unchanged; hence whenever the drawn
UUID differs from the task's current ID, the ID does not survive the
re-enqueue. -/
theorem c10_enqueue_frame (uuid : String) (now : Nat) (q : List EmailTask)
    (t : EmailTask) :
    (uuid ≠ t.taskID → (enqueueTaskFields uuid now t).taskID ≠ t.taskID) ∧
    (enqueueTaskFields uuid now t).taskID = uuid ∧
    (enqueueTaskFields uuid now t).createdAt = now ∧
    (enqueueTaskFields uuid now t).email = t.email ∧
    (enqueueTaskFields uuid now t).providerName = t.providerName ∧
    (enqueueTaskFields uuid now t).priority = t.priority ∧
    (enqueueTaskFields uuid now t).retryCount = t.retryCount ∧
    (enqueueTaskFields uuid now t).maxRetries = t.maxRetries ∧
    (enqueueTaskFields uuid now t).status = t.status ∧
    (enqueueTaskFields uuid now t).requestedAt = t.requestedAt ∧
    (queueEnqueue uuid now q t).2 = enqueueTaskFields uuid now t ∧
    workerRetryReenqueue uuid now t
      = enqueueTaskFields uuid now { t with retryCount := t.retryCount + 1 } := by
  refine ⟨?_, rfl, rfl, rfl, rfl, rfl, rfl, rfl, rfl, rfl, rfl, rfl⟩
  intro h
  simpa [enqueueTaskFields] using h

/-- Witness for C10: re-enqueueing `cTask` under the fresh UUID "u2" loses
the original task ID "enq1". -/
theorem c10_enqueue_frame_witness :
    (enqueueTaskFields "u2" 7 cTask).taskID ≠ cTask.taskID :=
  (c10_enqueue_frame "u2" 7 [] cTask).1 (by decide)

/-! ## Claim C6: the SMTP fallback chain -/

/-- C6: SMTPProvider tries implicit TLS, then STARTTLS, then plaintext, in
this fixed order, stopping at the first success (methods after the first
success are never attempted, as the attempt lists show); when all three
fail, the result is the single wrapped error naming the last (plaintext)
failure. -/
theorem c6_fallback_chain (oTLS oStart oPlain : MethodOutcome) :
    (∀ msgID, oTLS = .ok msgID →
      tryAllConnectionMethods oTLS oStart oPlain = (["TLS"], .ok msgID)) ∧
    (∀ e1 msgID, oTLS = .error e1 → oStart = .ok msgID →
      tryAllConnectionMethods oTLS oStart oPlain = (["TLS", "STARTTLS"], .ok msgID)) ∧
    (∀ e1 e2 msgID, oTLS = .error e1 → oStart = .error e2 → oPlain = .ok msgID →
      tryAllConnectionMethods oTLS oStart oPlain
        = (["TLS", "STARTTLS", "Plain"], .ok msgID)) ∧
    (∀ e1 e2 e3, oTLS = .error e1 → oStart = .error e2 → oPlain = .error e3 →
      tryAllConnectionMethods oTLS oStart oPlain
        = (["TLS", "STARTTLS", "Plain"],
            .error ("all SMTP connection methods failed, last error: " ++ e3))) := by
  refine ⟨?_, ?_, ?_, ?_⟩
  · intro msgID h1
    subst h1
    rfl
  · intro e1 msgID h1 h2
    subst h1
    subst h2
    rfl
  · intro e1 e2 msgID h1 h2 h3
    subst h1
    subst h2
    subst h3
    rfl
  · intro e1 e2 e3 h1 h2 h3
    subst h1
    subst h2
    subst h3
    rfl

/-- Witness for C6: a TLS success attempts nothing further; three concrete
failures produce the wrapped error naming the plaintext failure. -/
theorem c6_fallback_chain_witness :
    tryAllConnectionMethods (.ok "id-1") (.error "s") (.error "p") = (["TLS"], .ok "id-1") ∧
    tryAllConnectionMethods (.error "t") (.error "s") (.error "p")
      = (["TLS", "STARTTLS", "Plain"],
          .error ("all SMTP connection methods failed, last error: " ++ "p")) :=
  ⟨(c6_fallback_chain (.ok "id-1") (.error "s") (.error "p")).1 "id-1" rfl,
   (c6_fallback_chain (.error "t") (.error "s") (.error "p")).2.2.2 "t" "s" "p" rfl rfl rfl⟩

/-! ## Claim C8: BatchSend reports per-message results -/

/-- C8: BatchSend returns exactly one response per input message, in input
order; the response at each index records the success or failure of that
message's own send alone ("sent" with its message ID, or "failed"); and the
batch-level error is always nil — one message's failure neither halts the
batch nor becomes an aggregate error. -/
theorem c8_batchSend_per_message (send : Email → Except String EmailResponse)
    (now : Nat) (emails : List Email) :
    (batchSend send now emails).2 = none ∧
    (batchSend send now emails).1.length = emails.length ∧
    (∀ k, k < emails.length →
      (batchSend send now emails).1[k]? =
        some (match send (emails.getD k cEmail) with
          | .error _ => { messageID := "", status := "failed", sentAt := now }
          | .ok r => { messageID := r.messageID, status := "sent", sentAt := now })) := by
  refine ⟨rfl, ?_, ?_⟩
  · show (batchSendResponses send now emails).length = emails.length
    induction emails with
    | nil => rfl
    | cons e rest ih =>
      rw [batchSendResponses]
      cases send e with
      | error err => simpa using ih
      | ok r => simpa using ih
  · intro k
    induction emails generalizing k with
    | nil =>
      intro hk
      simp at hk
    | cons e rest ih =>
      intro hk
      show (batchSendResponses send now (e :: rest))[k]? = _
      rw [batchSendResponses]
      cases hse : send e with
      | error err =>
        cases k with
        | zero => simp [hse]
        | succ k' =>
          simp only [List.getElem?_cons_succ, List.getD_cons_succ]
          exact ih k' (by simpa using hk)
      | ok r =>
        cases k with
        | zero => simp [hse]
        | succ k' =>
          simp only [List.getElem?_cons_succ, List.getD_cons_succ]
          exact ih k' (by simpa using hk)

/-- Witness for C8: three messages against a chain whose only working
method is TLS — the invalid second message yields an independent "failed"
response between two "sent" ones. -/
theorem c8_batchSend_per_message_witness :
    (batchSend (fun e => (smtpSend (.ok "id-1") (.error "s") (.error "p") 4 e).2) 4
      [cEmail, cBadEmail, cEmail]).1[1]?
      = some { messageID := "", status := "failed", sentAt := 4 } :=
  by
    have h := (c8_batchSend_per_message
      (fun e => (smtpSend (.ok "id-1") (.error "s") (.error "p") 4 e).2) 4
      [cEmail, cBadEmail, cEmail]).2.2 1 (by decide)
    simpa using h

/-! ## Claim C5: the QueueEmail contract -/

/-- C5: QueueEmail errors when the queue is unwired or validation fails;
otherwise it enqueues a task bound to the current default provider's name,
whose Priority is the first optional parameter exactly when positive (the
only bound the code imposes on it; otherwise the fixed default 2) and whose
MaxRetries is the second optional parameter exactly when positive and at
most the configured maximum (otherwise that maximum), starting with retry
count 0 in status "queued". -/
theorem c5_queueEmail_contract (m : ManagerState) (p : Provider)
    (prepID enqID : String) (now : Nat) (email : Email) (ps : List Int)
    (hdp : m.defaultProvider = some p) :
    (m.queueWired = false →
      queueEmail m prepID enqID now email ps
        = some (.error "email queue not initialized")) ∧
    (∀ msg, m.queueWired = true → validateEmail email = .error msg →
      queueEmail m prepID enqID now email ps
        = some (.error ("email validation failed: " ++ msg))) ∧
    (m.queueWired = true → validateEmail email = .ok () →
      ∃ t, queueEmail m prepID enqID now email ps = some (.ok t) ∧
        t.providerName = p.name ∧
        t.retryCount = 0 ∧
        t.status = "queued" ∧
        t.priority = (match ps with
          | p0 :: _ => if 0 < p0 then p0 else 2
          | [] => 2) ∧
        t.maxRetries = (match ps with
          | _ :: r :: _ => if 0 < r ∧ r ≤ m.maxRetries then r else m.maxRetries
          | _ => m.maxRetries)) := by
  refine ⟨?_, ?_, ?_⟩
  · intro hw
    simp [queueEmail, hw]
  · intro msg hw hv
    simp [queueEmail, hw, hv]
  · intro hw hv
    refine ⟨enqueueTaskFields enqID now (EmailTask.prepareTask prepID now
      { taskID := "", email := some email, providerName := p.name, retryCount := 0,
        maxRetries := (match ps with
          | _ :: r :: _ => if 0 < r ∧ r ≤ m.maxRetries then r else m.maxRetries
          | _ => m.maxRetries),
        requestedAt := 0, createdAt := 0, status := "",
        priority := (match ps with
          | p0 :: _ => if 0 < p0 then p0 else 2
          | [] => 2) }), ?_, ?_, ?_, ?_, ?_, ?_⟩
    · simp [queueEmail, hw, hv, hdp]
    all_goals simp [enqueueTaskFields, EmailTask.prepareTask]

/-- Witness for C5: for the wired manager with configured maximum 3,
overrides priority 5 and maxRetries 9 yield priority 5 but maxRetries
clamped to 3, bound to provider "smtp". -/
theorem c5_queueEmail_contract_witness :
    ∃ t, queueEmail cMgr "prep1" "enq1" 1 cEmail [5, 9] = some (.ok t) ∧
      t.providerName = "smtp" ∧ t.retryCount = 0 ∧ t.status = "queued" ∧
      t.priority = 5 ∧ t.maxRetries = 3 := by
  obtain ⟨t, h1, h2, h3, h4, h5, h6⟩ :=
    (c5_queueEmail_contract cMgr failProvider "prep1" "enq1" 1 cEmail [5, 9] rfl).2.2
      rfl (by decide)
  exact ⟨t, h1, h2, h3, h4, by simpa using h5, by simpa using h6⟩

/-! ## Claim C7: validation short-circuits every connection method -/

/-- C7: for a message that fails validation, SMTPProvider.Send returns the
validation error with an empty attempt list — no connection method is ever
invoked — and QueueEmail (with the queue wired) rejects the same message
with the same wrapped validation error before constructing any task. -/
theorem c7_validation_short_circuit (oTLS oStart oPlain : MethodOutcome)
    (now : Nat) (email : Email) (m : ManagerState) (prepID enqID : String)
    (ps : List Int) (msg : String) (hv : validateEmail email = .error msg) :
    (smtpSend oTLS oStart oPlain now email).1 = [] ∧
    (smtpSend oTLS oStart oPlain now email).2
      = .error ("email validation failed: " ++ msg) ∧
    (m.queueWired = true →
      queueEmail m prepID enqID now email ps
        = some (.error ("email validation failed: " ++ msg))) := by
  refine ⟨?_, ?_, ?_⟩
  · simp [smtpSend, hv]
  · simp [smtpSend, hv]
  · intro hw
    simp [queueEmail, hw, hv]

/-- Witness for C7: the blank-subject message is rejected by Send with zero
attempted connection methods and by QueueEmail with the same error. -/
theorem c7_validation_short_circuit_witness :
    (smtpSend (.ok "id-1") (.ok "id-2") (.ok "id-3") 4 cBadEmail).1 = [] ∧
    (smtpSend (.ok "id-1") (.ok "id-2") (.ok "id-3") 4 cBadEmail).2
      = .error ("email validation failed: " ++ "email subject is required") ∧
    (cMgr.queueWired = true →
      queueEmail cMgr "prep1" "enq1" 4 cBadEmail []
        = some (.error ("email validation failed: " ++ "email subject is required"))) :=
  c7_validation_short_circuit (.ok "id-1") (.ok "id-2") (.ok "id-3") 4 cBadEmail
    cMgr "prep1" "enq1" [] "email subject is required" (by decide)

/-! ## Claim C1: the retry-count invariant -/

/-- C1 counterexample: a task created by QueueEmail with maxRetries 2 and
twice re-enqueued by the worker's retry path (each time with ShouldRetry
holding, exactly as `retryFailedTask` requires) reaches
`retryCount = maxRetries` while its status is still "queued", not "failed"
— the claimed invariant fails after the worker's re-enqueue mutation. -/
theorem c1_retry_invariant_counterexample :
    queueEmail cMgr "prep1" "enq1" 1 cEmail [2, 2] = some (.ok cTask) ∧
    cTask.shouldRetry = true ∧
    (workerRetryReenqueue "u1" 2 cTask).shouldRetry = true ∧
    (workerRetryReenqueue "u2" 3 (workerRetryReenqueue "u1" 2 cTask)).retryCount
      = (workerRetryReenqueue "u2" 3 (workerRetryReenqueue "u1" 2 cTask)).maxRetries ∧
    (workerRetryReenqueue "u2" 3 (workerRetryReenqueue "u1" 2 cTask)).status ≠ "failed" := by
  refine ⟨by decide, by decide, by decide, by decide, by decide⟩

/-- C1 (amended): `retryCount ≤ maxRetries` holds after IncrementRetry and
MarkAsFailed unconditionally, and is preserved by MarkAsSent and
PrepareTask; the worker's direct re-enqueue increment keeps it because it
only runs under ShouldRetry.  The second half of the invariant —
`retryCount = maxRetries` forces status "failed" — holds after
IncrementRetry and MarkAsFailed, but not in general after PrepareTask,
MarkAsSent or the worker's re-enqueue (see the counterexample: the failed
status then arrives only on the task's next processing attempt). -/
theorem c1_retry_invariant_amended (t : EmailTask) (freshID uuid : String)
    (now : Nat) :
    (t.incrementRetry.retryCount ≤ t.incrementRetry.maxRetries) ∧
    (t.incrementRetry.retryCount = t.incrementRetry.maxRetries →
      t.incrementRetry.status = "failed") ∧
    (t.markAsFailed.retryCount = t.markAsFailed.maxRetries ∧
      t.markAsFailed.status = "failed") ∧
    (t.retryCount ≤ t.maxRetries →
      t.markAsSent.retryCount ≤ t.markAsSent.maxRetries) ∧
    (t.retryCount ≤ t.maxRetries →
      (t.prepareTask freshID now).retryCount ≤ (t.prepareTask freshID now).maxRetries) ∧
    (t.shouldRetry = true →
      (workerRetryReenqueue uuid now t).retryCount
        ≤ (workerRetryReenqueue uuid now t).maxRetries) := by
  refine ⟨?_, ?_, ?_, ?_, ?_, ?_⟩
  · simp only [EmailTask.incrementRetry, EmailTask.markAsFailed]
    split
    · simp
    · rename_i hlt
      simp only at hlt ⊢
      simp at hlt ⊢
      omega
  · simp only [EmailTask.incrementRetry, EmailTask.markAsFailed]
    split
    · intro _
      rfl
    · rename_i hlt
      intro heq
      exfalso
      simp at hlt heq
      omega
  · exact ⟨rfl, rfl⟩
  · intro h
    simpa [EmailTask.markAsSent] using h
  · intro h
    simpa [EmailTask.prepareTask] using h
  · intro h
    unfold EmailTask.shouldRetry at h
    simp only [decide_eq_true_eq] at h
    simp [workerRetryReenqueue, enqueueTaskFields]
    omega

/-- Witness for C1 (amended) at `cTask` (retry count 0 of max 2). -/
theorem c1_retry_invariant_amended_witness :
    cTask.markAsSent.retryCount ≤ cTask.markAsSent.maxRetries ∧
    (workerRetryReenqueue "u1" 2 cTask).retryCount
      ≤ (workerRetryReenqueue "u1" 2 cTask).maxRetries :=
  ⟨(c1_retry_invariant_amended cTask "p" "u1" 2).2.2.2.1 (by decide),
   (c1_retry_invariant_amended cTask "p" "u1" 2).2.2.2.2.2 (by decide)⟩

/-! ## Claim C2: retry-then-fail with an admin alert -/

/-- C2 evaluated at its failing input: the valid message `cEmail`, enqueued
by QueueEmail with maxRetries 2, processed by DefaultEmailQueue.ProcessQueue
against a provider whose sends always fail, makes exactly ONE send attempt
— `processTask` marks the task failed before ProcessQueue consults
ShouldRetry, so the retry branch is dead — ends in status "failed" with
retryCount forced to 2, and produces NO admin alert (the queue loop has no
alerting path; `EmailWorker.processEmailTask`, which has one, is never
called).  The claimed two retries and one alert do not happen. -/
theorem c2_queue_loop_never_retries :
    queueEmail cMgr "prep1" "enq1" 1 cEmail [2, 2] = some (.ok cTask) ∧
    processQueueOnTask failProvider "u1" 2 10 cTask =
      { task := { cTask with status := "failed", retryCount := 2 },
        sendAttempts := 1, adminAlerts := 0 } := by
  refine ⟨by decide, by decide⟩

/-! ## Claim C3: which provider delivers a popped task -/

/-- C3 counterexample: a queued (non-terminal) task bound to provider name
"smtp" is delivered through "sendgrid" once the manager's default has been
swapped — both by the worker path (`processEmailTask` calls `manager.Send`,
which uses the current default) and by the queue path (`processTask` calls
the queue's assigned email service).  The provider name recorded on the
task is not the one used. -/
theorem c3_task_provider_counterexample :
    cTask.providerName = "smtp" ∧
    cTask.isCompleted = false ∧
    (∃ step, workerProcessEmailTask cMgrSwapped "u1" 2 cTask = some step ∧
      step.sends.map Prod.fst = ["sendgrid"]) ∧
    (queueProcessTask (some sendgridProvider) cTask).map (fun r => r.1.1)
      = some "sendgrid" ∧
    "sendgrid" ≠ cTask.providerName := by
  refine ⟨rfl, by decide, ⟨_, rfl, rfl⟩, rfl, by decide⟩

/-- C3 (amended): for every task with a message, the worker path sends it
(and any admin alert) exclusively through the manager's CURRENT default
provider, and the queue path exclusively through the queue's assigned email
service; `task.ProviderName` never selects the provider. -/
theorem c3_amended_delivery_uses_default (m : ManagerState) (p : Provider)
    (uuid : String) (now : Nat) (task : EmailTask) (email : Email)
    (svc : Provider) (hdp : m.defaultProvider = some p)
    (he : task.email = some email) :
    (∃ step, workerProcessEmailTask m uuid now task = some step ∧
      ∀ s ∈ step.sends, s.1 = p.name) ∧
    (∀ r, queueProcessTask (some svc) task = some r → r.1.1 = svc.name) := by
  constructor
  · cases hps : p.send email with
    | error e =>
      by_cases hsr : task.shouldRetry
      · refine ⟨{ sends := [(p.name, email)], adminAlerts := [],
                  task := workerRetryReenqueue uuid now task, reEnqueued := true }, ?_, ?_⟩
        · simp [workerProcessEmailTask, managerSend, he, hdp, hps, hsr]
        · intro s hs
          rw [List.mem_singleton.mp hs]
      · refine ⟨{ sends :=
                    [(p.name, email), (p.name, adminAlertEmail now task.markAsFailed)],
                  adminAlerts := [adminAlertEmail now task.markAsFailed],
                  task := task.markAsFailed, reEnqueued := false }, ?_, ?_⟩
        · simp [workerProcessEmailTask, managerSend, he, hdp, hps, hsr]
        · intro s hs
          simp only [List.mem_cons, List.mem_singleton, List.not_mem_nil, or_false] at hs
          rcases hs with rfl | rfl <;> rfl
    | ok r =>
      refine ⟨{ sends := [(p.name, email)], adminAlerts := [],
                task := task.markAsSent, reEnqueued := false }, ?_, ?_⟩
      · simp [workerProcessEmailTask, managerSend, he, hdp, hps]
      · intro s hs
        rw [List.mem_singleton.mp hs]
  · have hq : queueProcessTask (some svc) task
        = some ((svc.name, email),
            (match svc.send email with
              | .error _ => task.markAsFailed
              | .ok _ => task.markAsSent),
            (match svc.send email with
              | .error _ => false
              | .ok _ => true)) := by
      unfold queueProcessTask
      rw [he]
      show (match svc.send email with
        | .error _ => some ((svc.name, email), task.markAsFailed, false)
        | .ok _ => some ((svc.name, email), task.markAsSent, true)) = _
      cases svc.send email <;> rfl
    intro r hr
    rw [hq] at hr
    cases Option.some.inj hr
    rfl

/-- Witness for C3 (amended): the swapped manager delivers `cTask` (and the
queue path does too) through "sendgrid". -/
theorem c3_amended_delivery_uses_default_witness :
    (∃ step, workerProcessEmailTask cMgrSwapped "u1" 2 cTask = some step ∧
      ∀ s ∈ step.sends, s.1 = sendgridProvider.name) ∧
    (∀ r, queueProcessTask (some sendgridProvider) cTask = some r →
      r.1.1 = sendgridProvider.name) :=
  c3_amended_delivery_uses_default cMgrSwapped sendgridProvider "u1" 2 cTask
    { cEmail with sentAt := 1 } sendgridProvider rfl rfl
